import Mathlib

/-!
Verification development for the go-mem-ledger in-memory ledger.

The Go source is shallowly embedded:
* `domain.Account`'s `Deposit`/`Withdraw` methods become pure functions on
  `Int` balances, with Go's wrapping 64-bit signed arithmetic made explicit
  through `wrap64`.
* the ledger's `map[int64]*domain.Account` becomes an association list
  `AccountMap`; the Go handlers fetch account pointers and mutate them in
  place, which is modelled by re-looking-up after each update (so aliasing
  when `from == to` in a transfer behaves exactly as the shared pointer does).
* `MutexLedger.postTransactionInternal`, `LMAXLedger.processTransaction`,
  `applyRecoverTransaction` and `recoverFromWAL` become state-passing
  functions over `LedgerState`.
* the WAL (`pkg/wal`, file `wal.go`) is embedded as the ordered list of
  framed records held by its append-only file: `WAL.Write` JSON-encodes the
  value onto the end of the file and then calls `file.Sync()`; `Sync` (the
  durability barrier the mutex ledger invokes under the name `Flush`) has no
  effect on the record sequence; `ReadAll` seeks to offset zero and decodes
  the records in append order.  I/O faults are injected through the explicit
  `WriteOutcome` (and, for the mutex engine, flush-success) arguments of the
  posting functions, one constructor per failure point of `WAL.Write`.
-/

namespace GoMemLedger

/-! ## 64-bit signed integer arithmetic (Go `int64`) -/

/-- Smallest `int64` value, `-2^63`. -/
def int64Min : Int := -(2 ^ 63)

/-- Largest `int64` value, `2^63 - 1`. -/
def int64Max : Int := 2 ^ 63 - 1

/-- Go's `int64` addition/subtraction wraps around two's complement.
`wrap64 n` is the `int64` value whose residue mod `2^64` equals `n`. -/
def wrap64 (n : Int) : Int := (n + 2 ^ 63) % 2 ^ 64 - 2 ^ 63

theorem wrap64_eq_self {n : Int} (h1 : int64Min ≤ n) (h2 : n ≤ int64Max) :
    wrap64 n = n := by
  unfold wrap64
  have hlo : (0 : Int) ≤ n + 2 ^ 63 := by
    simp only [int64Min] at h1; omega
  have hhi : n + 2 ^ 63 < 2 ^ 64 := by
    simp only [int64Max] at h2
    have : (2 : Int) ^ 64 = 2 ^ 63 + 2 ^ 63 := by norm_num
    omega
  rw [Int.emod_eq_of_lt hlo hhi]
  ring

theorem wrap64_mem_range (n : Int) : int64Min ≤ wrap64 n ∧ wrap64 n ≤ int64Max := by
  unfold wrap64 int64Min int64Max
  have hpos : (0 : Int) < 2 ^ 64 := by norm_num
  have h1 := Int.emod_nonneg (n + 2 ^ 63) (by norm_num : (2 : Int) ^ 64 ≠ 0)
  have h2 := Int.emod_lt_of_pos (n + 2 ^ 63) hpos
  constructor <;> omega

/-! ## Domain layer (`internal/app/core/domain`) -/

/-- `domain.TransactionType` is a Go `uint8`; the named constants are
`Deposit = 1`, `Withdraw = 2`, `Transfer = 3`.  We keep the raw code as a
`Nat` so that the `switch` statements' default branches stay representable. -/
abbrev TransactionType := Nat

/-- `domain.Transaction`.  UUIDs are opaque identifiers, modelled as `Nat`;
account ids and monetary fields are `int64` values carried as `Int`. -/
structure Transaction where
  sequence : Nat
  fromAcc : Int
  toAcc : Int
  amount : Int
  createdAt : Int
  transactionID : Nat
  txType : TransactionType
deriving DecidableEq, Repr

/-- The sentinel errors of `domain/errors.go` that the in-memory ledgers can
return (plus `ErrWALWriteFailed`, referenced by both ledgers). -/
inductive LedgerErr where
  | amountMustBePositive
  | insufficientBalance
  | accountNotFound
  | walWriteFailed
deriving DecidableEq, Repr

/-- `domain.Account.Deposit`: rejects `amount < 0`, otherwise
`a.Balance = a.Balance + amount` with Go's wrapping `int64` addition. -/
def Account.deposit (balance amount : Int) : Except LedgerErr Int :=
  if amount < 0 then .error .amountMustBePositive
  else .ok (wrap64 (balance + amount))

/-- `domain.Account.Withdraw`: rejects `amount < 0`, then rejects
`Balance < amount`, otherwise `a.Balance = a.Balance - amount`. -/
def Account.withdraw (balance amount : Int) : Except LedgerErr Int :=
  if amount < 0 then .error .amountMustBePositive
  else if balance < amount then .error .insufficientBalance
  else .ok (wrap64 (balance - amount))

/-! ## The account map

`map[int64]*domain.Account` is embedded as an association list from account
id to balance (the `ID` field of `domain.Account` duplicates the key and is
never consulted by the handlers).  `lookupAcc` is a map read; `updateAcc`
overwrites the balance of an existing key, which is how every in-place
pointer mutation of the Go code is reflected. -/

abbrev AccountMap := List (Int × Int)

def lookupAcc : AccountMap → Int → Option Int
  | [], _ => none
  | (k, b) :: rest, id => if k = id then some b else lookupAcc rest id

def updateAcc : AccountMap → Int → Int → AccountMap
  | [], _, _ => []
  | (k, b) :: rest, id, v =>
      if k = id then (k, v) :: rest else (k, b) :: updateAcc rest id v

/-- Total balance held in the map. -/
def sumBal (m : AccountMap) : Int := (m.map Prod.snd).sum

/-- Every balance is a non-negative representable `int64` value. -/
def inRange (m : AccountMap) : Bool :=
  m.all fun p => decide (0 ≤ p.2) && decide (p.2 ≤ int64Max)

theorem lookupAcc_update_self {m : AccountMap} {k : Int} {b v : Int}
    (h : lookupAcc m k = some b) : lookupAcc (updateAcc m k v) k = some v := by
  induction m with
  | nil => simp [lookupAcc] at h
  | cons p rest ih =>
    obtain ⟨k', b'⟩ := p
    by_cases hk : k' = k
    · subst hk; simp [lookupAcc, updateAcc]
    · simp [lookupAcc, updateAcc, hk] at h ⊢
      exact ih h

theorem lookupAcc_update_ne {m : AccountMap} {k k' : Int} {v : Int}
    (h : k' ≠ k) : lookupAcc (updateAcc m k v) k' = lookupAcc m k' := by
  induction m with
  | nil => simp [updateAcc]
  | cons p rest ih =>
    obtain ⟨k0, b0⟩ := p
    by_cases hk : k0 = k
    · subst hk
      simp only [updateAcc, if_pos rfl, lookupAcc]
      rw [if_neg (by omega), if_neg (by omega)]
    · simp only [updateAcc, if_neg hk, lookupAcc]
      by_cases hk' : k0 = k'
      · simp [hk']
      · simp [hk', ih]

theorem updateAcc_updateAcc {m : AccountMap} {k v w : Int} :
    updateAcc (updateAcc m k v) k w = updateAcc m k w := by
  induction m with
  | nil => simp [updateAcc]
  | cons p rest ih =>
    obtain ⟨k0, b0⟩ := p
    by_cases hk : k0 = k
    · subst hk; simp [updateAcc]
    · simp [updateAcc, hk, ih]

theorem updateAcc_self {m : AccountMap} {k b : Int}
    (h : lookupAcc m k = some b) : updateAcc m k b = m := by
  induction m with
  | nil => rfl
  | cons p rest ih =>
    obtain ⟨k0, b0⟩ := p
    by_cases hk : k0 = k
    · subst hk
      simp only [lookupAcc, if_true, eq_self_iff_true, Option.some.injEq] at h
      simp [updateAcc, h]
    · simp only [lookupAcc, if_neg hk] at h
      simp [updateAcc, hk, ih h]

theorem sumBal_update {m : AccountMap} {k b v : Int}
    (h : lookupAcc m k = some b) :
    sumBal (updateAcc m k v) = sumBal m - b + v := by
  induction m with
  | nil => simp [lookupAcc] at h
  | cons p rest ih =>
    obtain ⟨k0, b0⟩ := p
    by_cases hk : k0 = k
    · subst hk
      simp only [lookupAcc, if_true, eq_self_iff_true, Option.some.injEq] at h
      subst h
      simp [updateAcc, sumBal]
      ring
    · simp only [lookupAcc, if_neg hk] at h
      simp only [updateAcc, if_neg hk, sumBal, List.map_cons, List.sum_cons]
      have := ih h
      simp only [sumBal] at this
      omega

theorem inRange_lookup {m : AccountMap} {k b : Int}
    (hm : inRange m = true) (h : lookupAcc m k = some b) :
    0 ≤ b ∧ b ≤ int64Max := by
  induction m with
  | nil => simp [lookupAcc] at h
  | cons p rest ih =>
    obtain ⟨k0, b0⟩ := p
    simp only [inRange, List.all_cons, Bool.and_eq_true, decide_eq_true_eq] at hm
    by_cases hk : k0 = k
    · simp only [lookupAcc, if_pos hk, Option.some.injEq] at h
      subst h
      exact ⟨hm.1.1, hm.1.2⟩
    · simp only [lookupAcc, if_neg hk] at h
      exact ih hm.2 h

theorem inRange_update {m : AccountMap} {k v : Int}
    (hm : inRange m = true) (h0 : 0 ≤ v) (h1 : v ≤ int64Max) :
    inRange (updateAcc m k v) = true := by
  induction m with
  | nil => simpa [updateAcc] using hm
  | cons p rest ih =>
    obtain ⟨k0, b0⟩ := p
    simp only [inRange, List.all_cons, Bool.and_eq_true, decide_eq_true_eq] at hm
    by_cases hk : k0 = k
    · simp only [updateAcc, if_pos hk, inRange, List.all_cons, Bool.and_eq_true,
        decide_eq_true_eq]
      exact ⟨⟨h0, h1⟩, by simpa [inRange] using hm.2⟩
    · simp only [updateAcc, if_neg hk, inRange, List.all_cons, Bool.and_eq_true,
        decide_eq_true_eq]
      refine ⟨hm.1, ?_⟩
      simpa [inRange] using ih (by simpa [inRange] using hm.2)

/-! ## Transaction handlers (shared verbatim by `MutexLedger` and `LMAXLedger`)

In the Go source the handlers fetch `*domain.Account` pointers out of the map
and mutate balances in place; on an error the already-made mutations would
persist.  For this code that distinction is invisible: in `handleTransfer`
the deposit follows a successful withdraw, and `Deposit` can only fail for a
negative amount, which the withdraw has already ruled out — so a handler
either errors with the map untouched or succeeds.  The embedding therefore
returns `Except LedgerErr AccountMap`. -/

/-- `handleDeposit`: look up `tran.To`, `AccountNotFound` if absent, then
`toAccount.Deposit(tran.Amount)`. -/
def handleDeposit (accounts : AccountMap) (t : Transaction) :
    Except LedgerErr AccountMap :=
  match lookupAcc accounts t.toAcc with
  | none => .error .accountNotFound
  | some bal =>
    match Account.deposit bal t.amount with
    | .error e => .error e
    | .ok b => .ok (updateAcc accounts t.toAcc b)

/-- `handleWithdraw`: look up `tran.From`, `AccountNotFound` if absent, then
`fromAccount.Withdraw(tran.Amount)`. -/
def handleWithdraw (accounts : AccountMap) (t : Transaction) :
    Except LedgerErr AccountMap :=
  match lookupAcc accounts t.fromAcc with
  | none => .error .accountNotFound
  | some bal =>
    match Account.withdraw bal t.amount with
    | .error e => .error e
    | .ok b => .ok (updateAcc accounts t.fromAcc b)

/-- `handleTransfer`: both accounts must exist, then
`fromAccount.Withdraw(amount)` followed by `toAccount.Deposit(amount)`.
The deposit re-reads the destination balance from the updated map, which is
exactly what the shared `*Account` pointer does when `From == To`. -/
def handleTransfer (accounts : AccountMap) (t : Transaction) :
    Except LedgerErr AccountMap :=
  match lookupAcc accounts t.fromAcc with
  | none => .error .accountNotFound
  | some fromBal =>
    match lookupAcc accounts t.toAcc with
    | none => .error .accountNotFound
    | some _ =>
      match Account.withdraw fromBal t.amount with
      | .error e => .error e
      | .ok fb =>
        let m1 := updateAcc accounts t.fromAcc fb
        match lookupAcc m1 t.toAcc with
        | none => .error .accountNotFound
        | some toBal =>
          match Account.deposit toBal t.amount with
          | .error e => .error e
          | .ok tb => .ok (updateAcc m1 t.toAcc tb)

/-- The `switch tran.Type` dispatch shared by posting and recovery.
`none` is the `default` branch (unknown type byte). -/
def dispatchTx (accounts : AccountMap) (t : Transaction) :
    Option (Except LedgerErr AccountMap) :=
  if t.txType = 1 then some (handleDeposit accounts t)
  else if t.txType = 2 then some (handleWithdraw accounts t)
  else if t.txType = 3 then some (handleTransfer accounts t)
  else none

/-! ## Engine state -/

/-- The mutable state of an in-memory ledger: the account map (AS), the
`processedTransactions` idempotency index (II, kept as the list of ids in
insertion order; Go stores a `map[uuid.UUID]time.Time` whose values the
logic never reads), and the WAL file content.

`walRecords` is the sequence of complete framed records in `pkg/wal`'s
append-only file (`wal.go`: opened with `O_APPEND|O_CREATE|O_RDWR`, one
JSON document per record via `json.Encoder.Encode`, read back in the same
order by `ReadAll`, which seeks to 0 and streams one decoded document per
callback).  JSON serialization of `domain.Transaction` round-trips: it is a
flat struct of integers and a UUID, all exported. -/
structure LedgerState where
  accounts : AccountMap
  processed : List Nat
  walRecords : List Transaction
deriving DecidableEq, Repr

/-- Outcome of one `WAL.Write` call (`wal.go`).  `Write` first runs
`json.NewEncoder(w.file).Encode(v)` — which appends the framed record — and
then `w.file.Sync()`, returning the first error:

* `ok` — both steps succeeded; the record is appended and `Write` returns
  `nil`;
* `encodeFail` — the `Encode` step failed, `Write` returns its error and no
  complete record was appended.  (Marshalling a `domain.Transaction` itself
  cannot fail — it is a flat exported struct — so this is an error of the
  underlying file write; a torn partial line is possible in the real file,
  but it is not a decodable record, and no theorem below examines the file
  content left by a failed post);
* `syncFail` — `Encode` succeeded, so the record IS appended, but the
  `Sync` inside `Write` failed and `Write` returns that error.

The mutex ledger additionally calls a separate barrier (`m.wal.Flush()`;
`wal.go` names the same `file.Sync()` barrier `Sync`), whose success is the
`flushOk` Boolean of `postTransactionInternal`: a failed barrier leaves the
already-appended record in the file and returns an error. -/
inductive WriteOutcome where
  | ok
  | encodeFail
  | syncFail
deriving DecidableEq, Repr

/-- The shared tail of the posting path: on handler success commit the new
account map and insert the id into `processedTransactions`; on a business
error leave the state as it was after the WAL append. -/
def commitIfOk (s : LedgerState) (t : Transaction) :
    Except LedgerErr AccountMap → Except LedgerErr Unit × LedgerState
  | .error e => (.error e, s)
  | .ok m =>
      (.ok (), { s with accounts := m, processed := s.processed ++ [t.transactionID] })

/-- `MutexLedger.postTransactionInternal` (the WAL is non-nil, as in every
production construction): idempotency probe, `wal.Write` (per
`WriteOutcome`, any error returns `ErrWALWriteFailed`), then the separate
`wal.Flush()` barrier (`flushOk`; its failure also returns
`ErrWALWriteFailed`, with the record already appended by `Write`), then
dispatch and idempotency commit.  The `default` branch of the `switch`
returns `nil` without touching the idempotency index. -/
def postTransactionInternal (w : WriteOutcome) (flushOk : Bool)
    (t : Transaction) (s : LedgerState) :
    Except LedgerErr Unit × LedgerState :=
  if t.transactionID ∈ s.processed then (.ok (), s)
  else
    match w with
    | .encodeFail => (.error .walWriteFailed, s)
    | .syncFail => (.error .walWriteFailed, { s with walRecords := s.walRecords ++ [t] })
    | .ok =>
      let s1 : LedgerState := { s with walRecords := s.walRecords ++ [t] }
      if flushOk = false then (.error .walWriteFailed, s1)
      else
        match dispatchTx s1.accounts t with
        | none => (.ok (), s1)
        | some r => commitIfOk s1 t r

/-- `LMAXLedger.processTransaction` (single-writer loop body): idempotency
probe, `wal.Write` (this variant has no separate flush call — `Write`
itself syncs), dispatch; the `default` branch leaves `err = nil`, so —
unlike the Mutex variant — an unknown type IS inserted into the
idempotency index. -/
def processTransaction (w : WriteOutcome) (t : Transaction) (s : LedgerState) :
    Except LedgerErr Unit × LedgerState :=
  if t.transactionID ∈ s.processed then (.ok (), s)
  else
    match w with
    | .encodeFail => (.error .walWriteFailed, s)
    | .syncFail => (.error .walWriteFailed, { s with walRecords := s.walRecords ++ [t] })
    | .ok =>
      let s1 : LedgerState := { s with walRecords := s.walRecords ++ [t] }
      match dispatchTx s1.accounts t with
      | none => commitIfOk s1 t (.ok s1.accounts)
      | some r => commitIfOk s1 t r

/-! ## Recovery (`recoverFromWAL` / `applyRecoverTransaction`) -/

/-- The accounts + idempotency index being rebuilt during recovery (recovery
never writes to the WAL). -/
structure RecovState where
  accounts : AccountMap
  processed : List Nat
deriving DecidableEq, Repr

/-- `applyRecoverTransaction`: dispatch on the type (the `switch` has no
`default`, so an unknown type leaves `err = nil`); on `err == nil` the id is
inserted into `processedTransactions`; the error, if any, is returned. -/
def applyRecoverTransaction (t : Transaction) (s : RecovState) :
    Except LedgerErr RecovState :=
  match dispatchTx s.accounts t with
  | some (.error e) => .error e
  | some (.ok m) => .ok ⟨m, s.processed ++ [t.transactionID]⟩
  | none => .ok ⟨s.accounts, s.processed ++ [t.transactionID]⟩

/-- The replay loop of `recoverFromWAL`: `wal.ReadAll` (`wal.go`) seeks to
offset 0 and decodes the file's framed records in append order;
`recoverFromWAL` first collects them into `tranHistory` (unmarshalling each
record back into the `domain.Transaction` it was encoded from) and then
applies each with `applyRecoverTransaction` — the first error aborts the
whole recovery. -/
def replayAll : List Transaction → RecovState → Except LedgerErr RecovState
  | [], s => .ok s
  | t :: rest, s =>
    match applyRecoverTransaction t s with
    | .error e => .error e
    | .ok s1 => replayAll rest s1

/-- `NewMutexLedger`: build the ledger over the seed accounts and the given
WAL file content; `recoverFromWAL` failing makes construction fail. -/
def newMutexLedger (accounts : AccountMap) (records : List Transaction) :
    Except LedgerErr LedgerState :=
  match replayAll records ⟨accounts, []⟩ with
  | .error e => .error e
  | .ok r => .ok { accounts := r.accounts, processed := r.processed, walRecords := records }

/-! ## Histories of posts -/

/-- The fresh engine state over seed accounts and an empty WAL file. -/
def initState (accounts : AccountMap) : LedgerState :=
  { accounts := accounts, processed := [], walRecords := [] }

/-- Run a sequence of posts through the Mutex engine; each entry carries
the `WAL.Write` outcome and the flush-barrier success of that post. -/
def runPosts : List (WriteOutcome × Bool × Transaction) → LedgerState → LedgerState
  | [], s => s
  | (w, f, t) :: rest, s => runPosts rest (postTransactionInternal w f t s).2

/-- Whether a post result is `Ok`. -/
def isOk : Except LedgerErr Unit → Bool
  | .ok _ => true
  | .error _ => false

/-- Every post in the history returned `Ok` to its caller. -/
def allOk : List (WriteOutcome × Bool × Transaction) → LedgerState → Bool
  | [], _ => true
  | (w, f, t) :: rest, s =>
    isOk (postTransactionInternal w f t s).1 &&
      allOk rest (postTransactionInternal w f t s).2

/-- Every transaction in the history carries one of the three declared type
codes (the closed enumeration of the data model). -/
def validTypes (hist : List (WriteOutcome × Bool × Transaction)) : Bool :=
  hist.all fun p => decide (p.2.2.txType = 1 ∨ p.2.2.txType = 2 ∨ p.2.2.txType = 3)

/-- The credit performed by this transaction (if any) does not overflow
`int64`: the exact sum of the credited balance and the amount is at most
`int64Max`. -/
def stepNoOverflow (t : Transaction) (m : AccountMap) : Bool :=
  if t.txType = 1 then
    match lookupAcc m t.toAcc with
    | none => true
    | some b => decide (b + t.amount ≤ int64Max)
  else if t.txType = 3 then
    match lookupAcc m t.fromAcc with
    | none => true
    | some fb =>
      match lookupAcc (updateAcc m t.fromAcc (wrap64 (fb - t.amount))) t.toAcc with
      | none => true
      | some b => decide (b + t.amount ≤ int64Max)
  else true

/-- No post in the history performs an overflowing credit. -/
def seqNoOverflow : List (WriteOutcome × Bool × Transaction) → LedgerState → Bool
  | [], _ => true
  | (w, f, t) :: rest, s =>
    stepNoOverflow t s.accounts && seqNoOverflow rest (postTransactionInternal w f t s).2

/-! ## General lemmas about replay and posting -/

theorem replayAll_append (xs ys : List Transaction) (s : RecovState) :
    replayAll (xs ++ ys) s =
      match replayAll xs s with
      | .error e => .error e
      | .ok s1 => replayAll ys s1 := by
  induction xs generalizing s with
  | nil => simp [replayAll]
  | cons t rest ih =>
    simp only [List.cons_append, replayAll]
    cases applyRecoverTransaction t s with
    | error e => rfl
    | ok s1 => exact ih s1

/-! ## Claim C1 -/

/-- Claim C1 as frozen is false: replaying a WAL record whose application
fails with a business error makes recovery fail and `NewMutexLedger` return
the error, so the engine does not start.  Concretely, a WAL holding a single
withdrawal of 5 from account 1 whose seed balance is 3 makes construction
return `InsufficientBalance` instead of recording the anomaly and
continuing. -/
theorem c1_counterexample :
    newMutexLedger [(1, 3)]
      [{ sequence := 0, fromAcc := 1, toAcc := 0, amount := 5, createdAt := 0,
         transactionID := 10, txType := 2 }] =
      .error .insufficientBalance := by
  rfl

/-- Claim C1 amended: if applying a replayed transaction fails with a
business error, recovery aborts at that record — the error is returned,
the remaining records are not replayed, and ledger construction (hence
engine start-up) fails with that error. -/
theorem c1_amended_recovery_aborts (A : AccountMap) (pre : List Transaction)
    (t : Transaction) (rest : List Transaction) (s : RecovState) (e : LedgerErr)
    (h1 : replayAll pre ⟨A, []⟩ = .ok s)
    (h2 : applyRecoverTransaction t s = .error e) :
    newMutexLedger A (pre ++ t :: rest) = .error e := by
  unfold newMutexLedger
  rw [replayAll_append, h1]
  simp only [replayAll, h2]

/-- Witness for `c1_amended_recovery_aborts` at the concrete
counterexample input. -/
theorem c1_amended_recovery_aborts_witness :
    newMutexLedger [(1, 3)]
      ([] ++ { sequence := 0, fromAcc := 1, toAcc := 0, amount := 5, createdAt := 0,
               transactionID := 10, txType := 2 } :: []) =
      .error .insufficientBalance :=
  c1_amended_recovery_aborts [(1, 3)] []
    { sequence := 0, fromAcc := 1, toAcc := 0, amount := 5, createdAt := 0,
      transactionID := 10, txType := 2 }
    [] ⟨[(1, 3)], []⟩ .insufficientBalance rfl rfl

/-! ## Claim C5 -/

/-- Claim C5: the code accepts `amount = 0`.  `Account.Deposit` (and
`Withdraw`) guard with `amount < 0`, so a zero-amount deposit posted to an
existing account returns `Ok`, appends a WAL record, leaves the balance
unchanged, and inserts the id into the idempotency index — it does not fail
with `AmountMustBePositive` as the error's own name (`ErrAmountMustBePositive`,
"amount must be positive") and the spec demand.  A negative amount does
fail.  This theorem evaluates the code at the failing input. -/
theorem c5_zero_amount_accepted :
    postTransactionInternal .ok true
      { sequence := 0, fromAcc := 0, toAcc := 1, amount := 0, createdAt := 0,
        transactionID := 5, txType := 1 }
      (initState [(1, 100)]) =
      (.ok (),
        { accounts := [(1, 100)], processed := [5],
          walRecords := [{ sequence := 0, fromAcc := 0, toAcc := 1, amount := 0,
                           createdAt := 0, transactionID := 5, txType := 1 }] }) ∧
    Account.deposit 100 0 = .ok 100 ∧
    Account.withdraw 100 0 = .ok 100 ∧
    Account.deposit 100 (-1) = .error .amountMustBePositive := by
  refine ⟨?_, ?_, ?_, ?_⟩ <;> rfl

/-! ## Claim C10 -/

/-- Claim C10: a Transfer whose `From` and `To` are the same existing
account behaves through the shared account pointer: with
`0 ≤ amount ≤ balance` it succeeds and leaves the whole account map exactly
as it was (so in particular the balance is unchanged), and with
`amount > balance` it fails with `InsufficientBalance` (the withdraw guard
fires before any mutation).  The balance hypotheses `0 ≤ bal ≤ int64Max`
are the `int64` representation of a non-negative balance. -/
theorem c10_self_transfer (m : AccountMap) (t : Transaction) (bal : Int)
    (hft : t.fromAcc = t.toAcc) (hl : lookupAcc m t.fromAcc = some bal)
    (h0 : 0 ≤ bal) (hmax : bal ≤ int64Max) :
    (0 ≤ t.amount → t.amount ≤ bal → handleTransfer m t = .ok m) ∧
    (bal < t.amount → handleTransfer m t = .error .insufficientBalance) := by
  have hmin0 : int64Min ≤ (0 : Int) := by norm_num [int64Min]
  constructor
  · intro ha hab
    unfold handleTransfer
    simp only [← hft, hl]
    unfold Account.withdraw
    rw [if_neg (not_lt.mpr ha), if_neg (not_lt.mpr hab)]
    have hw1 : wrap64 (bal - t.amount) = bal - t.amount :=
      wrap64_eq_self (by omega) (by omega)
    rw [hw1]
    simp only [lookupAcc_update_self hl]
    unfold Account.deposit
    rw [if_neg (not_lt.mpr ha), sub_add_cancel]
    have hw2 : wrap64 bal = bal := wrap64_eq_self (by omega) hmax
    rw [hw2]
    dsimp only
    rw [updateAcc_updateAcc, updateAcc_self hl]
  · intro hba
    have ha : ¬ t.amount < 0 := by omega
    unfold handleTransfer
    simp only [← hft, hl]
    unfold Account.withdraw
    rw [if_neg ha, if_pos hba]

/-- Witness for `c10_self_transfer`: a self-transfer of 4 on an account
holding 9 succeeds as a no-op, and one of 12 fails. -/
theorem c10_self_transfer_witness :
    (handleTransfer [(7, 9)]
        { sequence := 0, fromAcc := 7, toAcc := 7, amount := 4, createdAt := 0,
          transactionID := 1, txType := 3 } = .ok [(7, 9)]) ∧
    (handleTransfer [(7, 9)]
        { sequence := 0, fromAcc := 7, toAcc := 7, amount := 12, createdAt := 0,
          transactionID := 2, txType := 3 } = .error .insufficientBalance) := by
  constructor
  · exact (c10_self_transfer [(7, 9)]
      { sequence := 0, fromAcc := 7, toAcc := 7, amount := 4, createdAt := 0,
        transactionID := 1, txType := 3 } 9 rfl rfl (by norm_num)
      (by norm_num [int64Max])).1 (by norm_num) (by norm_num)
  · exact (c10_self_transfer [(7, 9)]
      { sequence := 0, fromAcc := 7, toAcc := 7, amount := 12, createdAt := 0,
        transactionID := 2, txType := 3 } 9 rfl rfl (by norm_num)
      (by norm_num [int64Max])).2 (by norm_num)

/-! ## Claim C8 -/

/-- Claim C8 as frozen is false at the overflow boundary: Go's `int64`
addition wraps silently, so depositing 1 into an account whose balance is
`int64Max` succeeds and leaves `int64Min`, not the exact sum
`int64Max + 1`. -/
theorem c8_counterexample :
    handleDeposit [(1, int64Max)]
      { sequence := 0, fromAcc := 0, toAcc := 1, amount := 1, createdAt := 0,
        transactionID := 3, txType := 1 } = .ok [(1, int64Min)] ∧
    int64Min ≠ int64Max + 1 := by
  constructor
  · show Except.ok (updateAcc [(1, int64Max)] 1 (wrap64 (int64Max + 1))) = _
    have : wrap64 (int64Max + 1) = int64Min := by
      unfold wrap64 int64Max int64Min
      norm_num
    rw [this]
    rfl
  · norm_num [int64Min, int64Max]

/-- Claim C8 amended: `handleDeposit` fails with `AccountNotFound` when the
target is absent; otherwise, for a non-negative amount, it sets the target
balance to `wrap64 (old + amount)` — the exact sum only when that sum does
not exceed `int64Max` (the addition silently wraps otherwise). -/
theorem c8_amended_deposit (m : AccountMap) (t : Transaction) (b : Int) :
    (lookupAcc m t.toAcc = none → handleDeposit m t = .error .accountNotFound) ∧
    (lookupAcc m t.toAcc = some b → 0 ≤ t.amount →
      handleDeposit m t = .ok (updateAcc m t.toAcc (wrap64 (b + t.amount))) ∧
      (int64Min ≤ b → b + t.amount ≤ int64Max → wrap64 (b + t.amount) = b + t.amount)) := by
  constructor
  · intro h
    unfold handleDeposit
    rw [h]
  · intro h ha
    refine ⟨?_, fun hmin hsum => ?_⟩
    · unfold handleDeposit Account.deposit
      rw [h]
      dsimp only
      rw [if_neg (not_lt.mpr ha)]
    · exact wrap64_eq_self (hmin.trans (le_add_of_nonneg_right ha)) hsum

/-- Witness for `c8_amended_deposit`: a deposit into a missing account
fails, and a deposit of 5 onto balance 2 yields exactly 7. -/
theorem c8_amended_deposit_witness :
    (handleDeposit [(1, 2)]
        { sequence := 0, fromAcc := 0, toAcc := 9, amount := 5, createdAt := 0,
          transactionID := 4, txType := 1 } = .error .accountNotFound) ∧
    (handleDeposit [(1, 2)]
        { sequence := 0, fromAcc := 0, toAcc := 1, amount := 5, createdAt := 0,
          transactionID := 4, txType := 1 } =
      .ok (updateAcc [(1, 2)] 1 (wrap64 (2 + 5))) ∧
      wrap64 (2 + 5) = 2 + 5) := by
  constructor
  · exact (c8_amended_deposit [(1, 2)]
      { sequence := 0, fromAcc := 0, toAcc := 9, amount := 5, createdAt := 0,
        transactionID := 4, txType := 1 } 0).1 rfl
  · have h := (c8_amended_deposit [(1, 2)]
      { sequence := 0, fromAcc := 0, toAcc := 1, amount := 5, createdAt := 0,
        transactionID := 4, txType := 1 } 2).2 rfl (by norm_num)
    exact ⟨h.1, h.2 (by norm_num [int64Min]) (by norm_num [int64Max])⟩

/-! ## Claim C9 -/

/-- Claim C9 as frozen is false at the overflow boundary: a successful
transfer of 1 from account 1 (balance 1) to account 2 (balance `int64Max`)
wraps the credited balance to `int64Min`, so the total drops from
`1 + int64Max` to `int64Min` — the transfer reports success yet the total
system balance is not conserved. -/
theorem c9_counterexample :
    handleTransfer [(1, 1), (2, int64Max)]
      { sequence := 0, fromAcc := 1, toAcc := 2, amount := 1, createdAt := 0,
        transactionID := 6, txType := 3 } = .ok [(1, 0), (2, int64Min)] ∧
    sumBal [(1, 0), (2, int64Min)] ≠ sumBal [(1, 1), (2, int64Max)] := by
  have hw1 : wrap64 (1 - 1) = 0 := by unfold wrap64; norm_num
  have hw2 : wrap64 (int64Max + 1) = int64Min := by
    unfold wrap64 int64Max int64Min; norm_num
  constructor
  · show Except.ok (updateAcc (updateAcc [(1, 1), (2, int64Max)] 1 (wrap64 (1 - 1))) 2
        (wrap64 (int64Max + 1))) = _
    rw [hw1, hw2]
    rfl
  · simp only [sumBal, List.map_cons, List.map_nil, List.sum_cons, List.sum_nil]
    norm_num [int64Min, int64Max]

/-- Claim C9 amended: a successful transfer conserves the total balance
provided the credit does not overflow `int64` — automatic when
`from == to`, and guaranteed for `from ≠ to` by the hypothesis that the
destination's old balance plus the amount is at most `int64Max`.  Balances
are assumed to be representable non-negative `int64` values (`inRange`). -/
theorem c9_amended_transfer_conserves (m m' : AccountMap) (t : Transaction)
    (hok : handleTransfer m t = .ok m') (hr : inRange m = true)
    (hno : t.fromAcc ≠ t.toAcc →
      ∀ b0, lookupAcc m t.toAcc = some b0 → b0 + t.amount ≤ int64Max) :
    sumBal m' = sumBal m := by
  unfold handleTransfer at hok
  cases hfrom : lookupAcc m t.fromAcc with
  | none => rw [hfrom] at hok; exact absurd hok (by simp)
  | some fb =>
    rw [hfrom] at hok
    cases hto : lookupAcc m t.toAcc with
    | none => rw [hto] at hok; exact absurd hok (by simp)
    | some b0 =>
      rw [hto] at hok
      dsimp only at hok
      unfold Account.withdraw at hok
      by_cases ha : t.amount < 0
      · rw [if_pos ha] at hok; exact absurd hok (by simp)
      rw [if_neg ha] at hok
      by_cases hfa : fb < t.amount
      · rw [if_pos hfa] at hok; exact absurd hok (by simp)
      rw [if_neg hfa] at hok
      dsimp only at hok
      obtain ⟨hfb0, hfbM⟩ := inRange_lookup hr hfrom
      obtain ⟨hb00, hb0M⟩ := inRange_lookup hr hto
      have hminle : int64Min ≤ (0 : Int) := by norm_num [int64Min]
      have hw1 : wrap64 (fb - t.amount) = fb - t.amount :=
        wrap64_eq_self (by omega) (by omega)
      rw [hw1] at hok
      by_cases hft : t.fromAcc = t.toAcc
      · have hl1 : lookupAcc (updateAcc m t.fromAcc (fb - t.amount)) t.toAcc =
            some (fb - t.amount) := by
          rw [← hft]; exact lookupAcc_update_self hfrom
        rw [hl1] at hok
        dsimp only at hok
        unfold Account.deposit at hok
        rw [if_neg ha, sub_add_cancel] at hok
        have hw2 : wrap64 fb = fb := wrap64_eq_self (by omega) hfbM
        rw [hw2] at hok
        dsimp only at hok
        obtain rfl : updateAcc (updateAcc m t.fromAcc (fb - t.amount)) t.toAcc fb = m' := by
          simpa using hok
        rw [← hft] at *
        rw [sumBal_update (lookupAcc_update_self hfrom), sumBal_update hfrom]
        ring
      · have hl1 : lookupAcc (updateAcc m t.fromAcc (fb - t.amount)) t.toAcc =
            some b0 := by
          rw [lookupAcc_update_ne (Ne.symm hft)]; exact hto
        rw [hl1] at hok
        dsimp only at hok
        unfold Account.deposit at hok
        rw [if_neg ha] at hok
        have hsum := hno hft b0 hto
        have hw2 : wrap64 (b0 + t.amount) = b0 + t.amount :=
          wrap64_eq_self (by omega) hsum
        rw [hw2] at hok
        dsimp only at hok
        obtain rfl : updateAcc (updateAcc m t.fromAcc (fb - t.amount)) t.toAcc
            (b0 + t.amount) = m' := by simpa using hok
        rw [sumBal_update hl1, sumBal_update hfrom]
        ring

/-- Witness for `c9_amended_transfer_conserves`: transferring 3 from
account 1 (balance 10) to account 2 (balance 5) conserves the total. -/
theorem c9_amended_transfer_conserves_witness :
    sumBal [(1, 7), (2, 8)] = sumBal [(1, 10), (2, 5)] := by
  refine c9_amended_transfer_conserves [(1, 10), (2, 5)] [(1, 7), (2, 8)]
    { sequence := 0, fromAcc := 1, toAcc := 2, amount := 3, createdAt := 0,
      transactionID := 7, txType := 3 } ?_ ?_ ?_
  · show Except.ok (updateAcc (updateAcc [(1, 10), (2, 5)] 1 (wrap64 (10 - 3))) 2
        (wrap64 (5 + 3))) = _
    have h1 : wrap64 (10 - 3) = 7 := by unfold wrap64; norm_num
    have h2 : wrap64 (5 + 3) = 8 := by unfold wrap64; norm_num
    rw [h1, h2]
    rfl
  · rfl
  · intro _ b0 hb0
    simp only [lookupAcc] at hb0
    norm_num at hb0
    subst hb0
    norm_num [int64Max]

/-! ## Case lemmas for the posting paths -/

theorem post_mem (w : WriteOutcome) (flushOk : Bool) (t : Transaction)
    (s : LedgerState) (hmem : t.transactionID ∈ s.processed) :
    postTransactionInternal w flushOk t s = (.ok (), s) := by
  unfold postTransactionInternal
  rw [if_pos hmem]

theorem post_ok_split (t : Transaction) (s : LedgerState)
    (hmem : t.transactionID ∉ s.processed) :
    postTransactionInternal .ok true t s =
      match dispatchTx s.accounts t with
      | none => (.ok (), { s with walRecords := s.walRecords ++ [t] })
      | some (.error e) => (.error e, { s with walRecords := s.walRecords ++ [t] })
      | some (.ok m) =>
          (.ok (), { accounts := m, processed := s.processed ++ [t.transactionID],
                     walRecords := s.walRecords ++ [t] }) := by
  unfold postTransactionInternal
  rw [if_neg hmem]
  dsimp only
  cases dispatchTx s.accounts t with
  | none => rfl
  | some r => cases r <;> rfl

theorem process_mem (w : WriteOutcome) (t : Transaction) (s : LedgerState)
    (hmem : t.transactionID ∈ s.processed) :
    processTransaction w t s = (.ok (), s) := by
  unfold processTransaction
  rw [if_pos hmem]

theorem process_ok_split (t : Transaction) (s : LedgerState)
    (hmem : t.transactionID ∉ s.processed) :
    processTransaction .ok t s =
      match dispatchTx s.accounts t with
      | none => (.ok (), { accounts := s.accounts,
                           processed := s.processed ++ [t.transactionID],
                           walRecords := s.walRecords ++ [t] })
      | some (.error e) => (.error e, { s with walRecords := s.walRecords ++ [t] })
      | some (.ok m) =>
          (.ok (), { accounts := m, processed := s.processed ++ [t.transactionID],
                     walRecords := s.walRecords ++ [t] }) := by
  unfold processTransaction
  rw [if_neg hmem]
  dsimp only
  cases dispatchTx s.accounts t with
  | none => rfl
  | some r => cases r <;> rfl

/-! ## Claim C4 -/

/-- Claim C4 as frozen is false: both engines append the WAL record before
validating the business logic, so a post of amount `-1` fails with
`AmountMustBePositive` yet leaves a WAL record behind (the balances and the
idempotency index are untouched, as claimed). -/
theorem c4_counterexample :
    postTransactionInternal .ok true
      { sequence := 0, fromAcc := 0, toAcc := 1, amount := -1, createdAt := 0,
        transactionID := 8, txType := 1 }
      (initState [(1, 100)]) =
      (.error .amountMustBePositive,
        { accounts := [(1, 100)], processed := [],
          walRecords := [{ sequence := 0, fromAcc := 0, toAcc := 1, amount := -1,
                           createdAt := 0, transactionID := 8, txType := 1 }] }) := by
  rfl

/-- Claim C4 amended: a post that fails with `AmountMustBePositive` changes
no account balance and does not touch the idempotency index, but — because
the WAL write precedes validation — it does append one WAL record.  (Such a
failure can only occur when `wal.Write` and the flush barrier succeeded: the
idempotency probe would have returned `Ok` and a WAL fault returns
`WALWriteFailed`.)  The second conjunct states the same for the
single-writer engine. -/
theorem c4_amended_failed_post_effects (w : WriteOutcome) (flushOk : Bool)
    (t : Transaction) (s : LedgerState) :
    ((postTransactionInternal w flushOk t s).1 = .error .amountMustBePositive →
      (postTransactionInternal w flushOk t s).2.accounts = s.accounts ∧
      (postTransactionInternal w flushOk t s).2.processed = s.processed ∧
      (postTransactionInternal w flushOk t s).2.walRecords = s.walRecords ++ [t]) ∧
    ((processTransaction .ok t s).1 = .error .amountMustBePositive →
      (processTransaction .ok t s).2.accounts = s.accounts ∧
      (processTransaction .ok t s).2.processed = s.processed ∧
      (processTransaction .ok t s).2.walRecords = s.walRecords ++ [t]) := by
  constructor
  · intro h
    by_cases hmem : t.transactionID ∈ s.processed
    · rw [post_mem w flushOk t s hmem] at h
      exact absurd h (by simp)
    · cases w with
      | encodeFail =>
        unfold postTransactionInternal at h
        rw [if_neg hmem] at h
        exact absurd h (by simp)
      | syncFail =>
        unfold postTransactionInternal at h
        rw [if_neg hmem] at h
        exact absurd h (by simp)
      | ok =>
        cases flushOk with
        | false =>
          unfold postTransactionInternal at h
          rw [if_neg hmem] at h
          exact absurd h (by simp)
        | true =>
          rw [post_ok_split t s hmem] at h ⊢
          cases hd : dispatchTx s.accounts t with
          | none => rw [hd] at h; exact absurd h (by simp)
          | some r =>
            cases r with
            | error e => exact ⟨rfl, rfl, rfl⟩
            | ok m => rw [hd] at h; exact absurd h (by simp)
  · intro h
    by_cases hmem : t.transactionID ∈ s.processed
    · rw [process_mem .ok t s hmem] at h
      exact absurd h (by simp)
    · rw [process_ok_split t s hmem] at h ⊢
      cases hd : dispatchTx s.accounts t with
      | none => rw [hd] at h; exact absurd h (by simp)
      | some r =>
        cases r with
        | error e => exact ⟨rfl, rfl, rfl⟩
        | ok m => rw [hd] at h; exact absurd h (by simp)

/-- Witness for `c4_amended_failed_post_effects` at the concrete
counterexample input (a deposit of `-1`). -/
theorem c4_amended_failed_post_effects_witness :
    ((postTransactionInternal .ok true
        { sequence := 0, fromAcc := 0, toAcc := 1, amount := -1, createdAt := 0,
          transactionID := 8, txType := 1 }
        (initState [(1, 100)])).2.accounts = [(1, 100)] ∧
      (postTransactionInternal .ok true
        { sequence := 0, fromAcc := 0, toAcc := 1, amount := -1, createdAt := 0,
          transactionID := 8, txType := 1 }
        (initState [(1, 100)])).2.processed = [] ∧
      (postTransactionInternal .ok true
        { sequence := 0, fromAcc := 0, toAcc := 1, amount := -1, createdAt := 0,
          transactionID := 8, txType := 1 }
        (initState [(1, 100)])).2.walRecords =
        [] ++ [{ sequence := 0, fromAcc := 0, toAcc := 1, amount := -1, createdAt := 0,
                 transactionID := 8, txType := 1 }]) ∧
    ((processTransaction .ok
        { sequence := 0, fromAcc := 0, toAcc := 1, amount := -1, createdAt := 0,
          transactionID := 8, txType := 1 }
        (initState [(1, 100)])).2.accounts = [(1, 100)] ∧
      (processTransaction .ok
        { sequence := 0, fromAcc := 0, toAcc := 1, amount := -1, createdAt := 0,
          transactionID := 8, txType := 1 }
        (initState [(1, 100)])).2.processed = [] ∧
      (processTransaction .ok
        { sequence := 0, fromAcc := 0, toAcc := 1, amount := -1, createdAt := 0,
          transactionID := 8, txType := 1 }
        (initState [(1, 100)])).2.walRecords =
        [] ++ [{ sequence := 0, fromAcc := 0, toAcc := 1, amount := -1, createdAt := 0,
                 transactionID := 8, txType := 1 }]) := by
  have h := c4_amended_failed_post_effects .ok true
    { sequence := 0, fromAcc := 0, toAcc := 1, amount := -1, createdAt := 0,
      transactionID := 8, txType := 1 }
    (initState [(1, 100)])
  exact ⟨h.1 rfl, h.2 rfl⟩

/-! ## Claim C6 -/

/-- Claim C6: if the WAL append (`wal.Write`, failing either at the
`Encode` step or at the `Sync` inside `Write`) or the separate durability
barrier (`wal.Flush()`) fails on a post whose id was not already processed,
the post returns `WALWriteFailed`, no account balance changes, and the
transaction id is not inserted into the idempotency index.  (When the id is
already processed, the WAL is never touched, so no WAL failure can occur.
A `syncFail` or failed barrier does leave the already-appended record in
the file — the claim constrains only balances and the index, and both are
untouched.)  The second conjunct covers the single-writer engine, whose
only WAL call is `wal.Write`. -/
theorem c6_wal_failure_no_effects (w : WriteOutcome) (flushOk : Bool)
    (w2 : WriteOutcome) (t : Transaction) (s : LedgerState)
    (hfail : w ≠ WriteOutcome.ok ∨ flushOk = false)
    (hw2 : w2 ≠ WriteOutcome.ok)
    (hmem : t.transactionID ∉ s.processed) :
    ((postTransactionInternal w flushOk t s).1 = .error .walWriteFailed ∧
      (postTransactionInternal w flushOk t s).2.accounts = s.accounts ∧
      (postTransactionInternal w flushOk t s).2.processed = s.processed) ∧
    ((processTransaction w2 t s).1 = .error .walWriteFailed ∧
      (processTransaction w2 t s).2.accounts = s.accounts ∧
      (processTransaction w2 t s).2.processed = s.processed) := by
  constructor
  · unfold postTransactionInternal
    rw [if_neg hmem]
    cases w with
    | encodeFail => exact ⟨rfl, rfl, rfl⟩
    | syncFail => exact ⟨rfl, rfl, rfl⟩
    | ok =>
      rcases hfail with h | h
      · exact absurd rfl h
      · subst h
        exact ⟨rfl, rfl, rfl⟩
  · unfold processTransaction
    rw [if_neg hmem]
    cases w2 with
    | ok => exact absurd rfl hw2
    | encodeFail => exact ⟨rfl, rfl, rfl⟩
    | syncFail => exact ⟨rfl, rfl, rfl⟩

/-- Witness for `c6_wal_failure_no_effects`: a failed flush barrier on a
fresh deposit (mutex engine) and a failed `Sync`-inside-`Write` (LMAX
engine) leave balances and the idempotency index untouched. -/
theorem c6_wal_failure_no_effects_witness :
    ((postTransactionInternal .ok false
        { sequence := 0, fromAcc := 0, toAcc := 1, amount := 5, createdAt := 0,
          transactionID := 9, txType := 1 }
        (initState [(1, 5)])).1 = .error .walWriteFailed ∧
      (postTransactionInternal .ok false
        { sequence := 0, fromAcc := 0, toAcc := 1, amount := 5, createdAt := 0,
          transactionID := 9, txType := 1 }
        (initState [(1, 5)])).2.accounts = [(1, 5)] ∧
      (postTransactionInternal .ok false
        { sequence := 0, fromAcc := 0, toAcc := 1, amount := 5, createdAt := 0,
          transactionID := 9, txType := 1 }
        (initState [(1, 5)])).2.processed = []) ∧
    ((processTransaction .syncFail
        { sequence := 0, fromAcc := 0, toAcc := 1, amount := 5, createdAt := 0,
          transactionID := 9, txType := 1 }
        (initState [(1, 5)])).1 = .error .walWriteFailed ∧
      (processTransaction .syncFail
        { sequence := 0, fromAcc := 0, toAcc := 1, amount := 5, createdAt := 0,
          transactionID := 9, txType := 1 }
        (initState [(1, 5)])).2.accounts = [(1, 5)] ∧
      (processTransaction .syncFail
        { sequence := 0, fromAcc := 0, toAcc := 1, amount := 5, createdAt := 0,
          transactionID := 9, txType := 1 }
        (initState [(1, 5)])).2.processed = []) :=
  c6_wal_failure_no_effects .ok false .syncFail
    { sequence := 0, fromAcc := 0, toAcc := 1, amount := 5, createdAt := 0,
      transactionID := 9, txType := 1 }
    (initState [(1, 5)]) (Or.inr rfl) (by simp) (by simp [initState])

/-! ## Claim C3 -/

theorem post_acc_proc_unchanged (w : WriteOutcome) (flushOk : Bool)
    (t : Transaction) (s : LedgerState)
    (h : ∀ m, dispatchTx s.accounts t ≠ some (.ok m)) :
    (postTransactionInternal w flushOk t s).2.accounts = s.accounts ∧
    (postTransactionInternal w flushOk t s).2.processed = s.processed := by
  by_cases hmem : t.transactionID ∈ s.processed
  · rw [post_mem w flushOk t s hmem]
    exact ⟨rfl, rfl⟩
  · cases w with
    | encodeFail =>
      unfold postTransactionInternal
      rw [if_neg hmem]
      exact ⟨rfl, rfl⟩
    | syncFail =>
      unfold postTransactionInternal
      rw [if_neg hmem]
      exact ⟨rfl, rfl⟩
    | ok =>
      cases flushOk with
      | false =>
        unfold postTransactionInternal
        rw [if_neg hmem]
        exact ⟨rfl, rfl⟩
      | true =>
        rw [post_ok_split t s hmem]
        cases hd : dispatchTx s.accounts t with
        | none => exact ⟨rfl, rfl⟩
        | some r =>
          cases r with
          | error e => exact ⟨rfl, rfl⟩
          | ok m => exact absurd hd (h m)

theorem process_acc_proc_unchanged (w : WriteOutcome) (t : Transaction)
    (s : LedgerState) (e : LedgerErr)
    (hd : dispatchTx s.accounts t = some (.error e)) :
    (processTransaction w t s).2.accounts = s.accounts ∧
    (processTransaction w t s).2.processed = s.processed := by
  by_cases hmem : t.transactionID ∈ s.processed
  · rw [process_mem w t s hmem]
    exact ⟨rfl, rfl⟩
  · cases w with
    | encodeFail =>
      unfold processTransaction
      rw [if_neg hmem]
      exact ⟨rfl, rfl⟩
    | syncFail =>
      unfold processTransaction
      rw [if_neg hmem]
      exact ⟨rfl, rfl⟩
    | ok =>
      rw [process_ok_split t s hmem, hd]
      exact ⟨rfl, rfl⟩

/-- Claim C3: posting the same transaction twice leaves the account store
and the idempotency index exactly as a single post does — the second post
(under any `WAL.Write` outcome and flush-barrier result) changes neither;
and whenever the id is already in the idempotency index, post returns `Ok`
immediately with no WAL append and no mutation at all (the state is
returned unchanged).  The last two conjuncts state the same for the
single-writer engine. -/
theorem c3_post_idempotent :
    (∀ (w2 : WriteOutcome) (f2 : Bool) (t : Transaction) (s : LedgerState),
      (postTransactionInternal w2 f2 t
          (postTransactionInternal .ok true t s).2).2.accounts =
        (postTransactionInternal .ok true t s).2.accounts ∧
      (postTransactionInternal w2 f2 t
          (postTransactionInternal .ok true t s).2).2.processed =
        (postTransactionInternal .ok true t s).2.processed) ∧
    (∀ (w : WriteOutcome) (f : Bool) (t : Transaction) (s : LedgerState),
      t.transactionID ∈ s.processed → postTransactionInternal w f t s = (.ok (), s)) ∧
    (∀ (w2 : WriteOutcome) (t : Transaction) (s : LedgerState),
      (processTransaction w2 t (processTransaction .ok t s).2).2.accounts =
        (processTransaction .ok t s).2.accounts ∧
      (processTransaction w2 t (processTransaction .ok t s).2).2.processed =
        (processTransaction .ok t s).2.processed) ∧
    (∀ (w : WriteOutcome) (t : Transaction) (s : LedgerState),
      t.transactionID ∈ s.processed → processTransaction w t s = (.ok (), s)) := by
  refine ⟨?_, post_mem, ?_, process_mem⟩
  · intro w2 f2 t s
    by_cases hmem : t.transactionID ∈ s.processed
    · rw [post_mem .ok true t s hmem, post_mem w2 f2 t s hmem]
      exact ⟨rfl, rfl⟩
    · rw [post_ok_split t s hmem]
      cases hd : dispatchTx s.accounts t with
      | none =>
        dsimp only
        exact post_acc_proc_unchanged w2 f2 t _
          (fun m hc => by
            rw [show dispatchTx ({ s with walRecords := s.walRecords ++ [t] } :
                LedgerState).accounts t = dispatchTx s.accounts t from rfl, hd] at hc
            cases hc)
      | some r =>
        cases r with
        | error e =>
          dsimp only
          exact post_acc_proc_unchanged w2 f2 t _
            (fun m hc => by
              rw [show dispatchTx ({ s with walRecords := s.walRecords ++ [t] } :
                  LedgerState).accounts t = dispatchTx s.accounts t from rfl, hd] at hc
              cases hc)
        | ok m =>
          dsimp only
          rw [post_mem w2 f2 t _ (by simp)]
          exact ⟨rfl, rfl⟩
  · intro w2 t s
    by_cases hmem : t.transactionID ∈ s.processed
    · rw [process_mem .ok t s hmem, process_mem w2 t s hmem]
      exact ⟨rfl, rfl⟩
    · rw [process_ok_split t s hmem]
      cases hd : dispatchTx s.accounts t with
      | none =>
        dsimp only
        rw [process_mem w2 t _ (by simp)]
        exact ⟨rfl, rfl⟩
      | some r =>
        cases r with
        | error e =>
          dsimp only
          exact process_acc_proc_unchanged w2 t _ e
            (by rw [show dispatchTx ({ s with walRecords := s.walRecords ++ [t] } :
                LedgerState).accounts t = dispatchTx s.accounts t from rfl, hd])
        | ok m =>
          dsimp only
          rw [process_mem w2 t _ (by simp)]
          exact ⟨rfl, rfl⟩

/-- Witness for `c3_post_idempotent`: double-posting a concrete deposit on
`{1 ↦ 100}` leaves the state of a single post, and a post whose id is
already processed returns the state unchanged. -/
theorem c3_post_idempotent_witness :
    ((postTransactionInternal .ok true
        { sequence := 0, fromAcc := 0, toAcc := 1, amount := 25, createdAt := 0,
          transactionID := 12, txType := 1 }
        (postTransactionInternal .ok true
          { sequence := 0, fromAcc := 0, toAcc := 1, amount := 25, createdAt := 0,
            transactionID := 12, txType := 1 }
          (initState [(1, 100)])).2).2.accounts =
      (postTransactionInternal .ok true
        { sequence := 0, fromAcc := 0, toAcc := 1, amount := 25, createdAt := 0,
          transactionID := 12, txType := 1 }
        (initState [(1, 100)])).2.accounts) ∧
    (postTransactionInternal .ok true
      { sequence := 0, fromAcc := 0, toAcc := 1, amount := 25, createdAt := 0,
        transactionID := 12, txType := 1 }
      { accounts := [(1, 100)], processed := [12], walRecords := [] } =
      (.ok (), { accounts := [(1, 100)], processed := [12], walRecords := [] })) :=
  ⟨(c3_post_idempotent.1 .ok true
      { sequence := 0, fromAcc := 0, toAcc := 1, amount := 25, createdAt := 0,
        transactionID := 12, txType := 1 }
      (initState [(1, 100)])).1,
   c3_post_idempotent.2.1 .ok true
      { sequence := 0, fromAcc := 0, toAcc := 1, amount := 25, createdAt := 0,
        transactionID := 12, txType := 1 }
      { accounts := [(1, 100)], processed := [12], walRecords := [] }
      (by simp)⟩

/-! ## Claim C7 -/

/-- Every balance in the map is non-negative. -/
def allNonNeg (m : AccountMap) : Bool :=
  m.all fun p => decide (0 ≤ p.2)

theorem inRange_allNonNeg {m : AccountMap} (h : inRange m = true) :
    allNonNeg m = true := by
  induction m with
  | nil => rfl
  | cons p rest ih =>
    simp only [inRange, List.all_cons, Bool.and_eq_true, decide_eq_true_eq] at h
    simp only [allNonNeg, List.all_cons, Bool.and_eq_true, decide_eq_true_eq]
    exact ⟨h.1.1, by simpa [allNonNeg] using ih (by simpa [inRange] using h.2)⟩

theorem handleDeposit_ok_inRange {m mm : AccountMap} {t : Transaction}
    (hr : inRange m = true)
    (hcond : ∀ b, lookupAcc m t.toAcc = some b → b + t.amount ≤ int64Max)
    (hd : handleDeposit m t = .ok mm) : inRange mm = true := by
  unfold handleDeposit at hd
  cases hl : lookupAcc m t.toAcc with
  | none => rw [hl] at hd; cases hd
  | some b =>
    rw [hl] at hd
    dsimp only at hd
    unfold Account.deposit at hd
    by_cases ha : t.amount < 0
    · rw [if_pos ha] at hd; cases hd
    · rw [if_neg ha] at hd
      dsimp only at hd
      obtain ⟨hb0, _⟩ := inRange_lookup hr hl
      have hw : wrap64 (b + t.amount) = b + t.amount :=
        wrap64_eq_self (by norm_num [int64Min]; omega) (hcond b hl)
      obtain rfl : updateAcc m t.toAcc (wrap64 (b + t.amount)) = mm := by
        simpa using hd
      rw [hw]
      exact inRange_update hr (by omega) (hcond b hl)

theorem handleWithdraw_ok_inRange {m mm : AccountMap} {t : Transaction}
    (hr : inRange m = true)
    (hd : handleWithdraw m t = .ok mm) : inRange mm = true := by
  unfold handleWithdraw at hd
  cases hl : lookupAcc m t.fromAcc with
  | none => rw [hl] at hd; cases hd
  | some b =>
    rw [hl] at hd
    dsimp only at hd
    unfold Account.withdraw at hd
    by_cases ha : t.amount < 0
    · rw [if_pos ha] at hd; cases hd
    rw [if_neg ha] at hd
    by_cases hba : b < t.amount
    · rw [if_pos hba] at hd; cases hd
    rw [if_neg hba] at hd
    dsimp only at hd
    obtain ⟨hb0, hbM⟩ := inRange_lookup hr hl
    have hw : wrap64 (b - t.amount) = b - t.amount :=
      wrap64_eq_self (by norm_num [int64Min]; omega) (by omega)
    obtain rfl : updateAcc m t.fromAcc (wrap64 (b - t.amount)) = mm := by
      simpa using hd
    rw [hw]
    exact inRange_update hr (by omega) (by omega)

theorem handleTransfer_ok_inRange {m mm : AccountMap} {t : Transaction}
    (hr : inRange m = true)
    (hcond : ∀ fb b, lookupAcc m t.fromAcc = some fb →
      lookupAcc (updateAcc m t.fromAcc (wrap64 (fb - t.amount))) t.toAcc = some b →
      b + t.amount ≤ int64Max)
    (hd : handleTransfer m t = .ok mm) : inRange mm = true := by
  unfold handleTransfer at hd
  cases hfrom : lookupAcc m t.fromAcc with
  | none => rw [hfrom] at hd; cases hd
  | some fb =>
    rw [hfrom] at hd
    cases hto : lookupAcc m t.toAcc with
    | none => rw [hto] at hd; cases hd
    | some b0 =>
      rw [hto] at hd
      dsimp only at hd
      unfold Account.withdraw at hd
      by_cases ha : t.amount < 0
      · rw [if_pos ha] at hd; cases hd
      rw [if_neg ha] at hd
      by_cases hba : fb < t.amount
      · rw [if_pos hba] at hd; cases hd
      rw [if_neg hba] at hd
      dsimp only at hd
      obtain ⟨hfb0, hfbM⟩ := inRange_lookup hr hfrom
      have hw : wrap64 (fb - t.amount) = fb - t.amount :=
        wrap64_eq_self (by norm_num [int64Min]; omega) (by omega)
      have hr1 : inRange (updateAcc m t.fromAcc (wrap64 (fb - t.amount))) = true := by
        rw [hw]; exact inRange_update hr (by omega) (by omega)
      cases hl1 : lookupAcc (updateAcc m t.fromAcc (wrap64 (fb - t.amount))) t.toAcc with
      | none => rw [hl1] at hd; cases hd
      | some b1 =>
        rw [hl1] at hd
        dsimp only at hd
        unfold Account.deposit at hd
        rw [if_neg ha] at hd
        dsimp only at hd
        obtain ⟨hb10, _⟩ := inRange_lookup hr1 hl1
        have hsum := hcond fb b1 hfrom hl1
        have hw2 : wrap64 (b1 + t.amount) = b1 + t.amount :=
          wrap64_eq_self (by norm_num [int64Min]; omega) hsum
        obtain rfl : updateAcc (updateAcc m t.fromAcc (wrap64 (fb - t.amount))) t.toAcc
            (wrap64 (b1 + t.amount)) = mm := by simpa using hd
        rw [hw2]
        exact inRange_update hr1 (by omega) hsum

theorem dispatch_ok_inRange {m mm : AccountMap} {t : Transaction}
    (hr : inRange m = true) (hno : stepNoOverflow t m = true)
    (hd : dispatchTx m t = some (.ok mm)) : inRange mm = true := by
  unfold dispatchTx at hd
  unfold stepNoOverflow at hno
  by_cases h1 : t.txType = 1
  · rw [if_pos h1] at hd hno
    refine handleDeposit_ok_inRange hr (fun b hb => ?_) (by simpa using hd)
    rw [hb] at hno
    exact of_decide_eq_true hno
  rw [if_neg h1] at hd hno
  by_cases h2 : t.txType = 2
  · rw [if_pos h2] at hd
    exact handleWithdraw_ok_inRange hr (by simpa using hd)
  rw [if_neg h2] at hd
  by_cases h3 : t.txType = 3
  · rw [if_pos h3] at hd hno
    refine handleTransfer_ok_inRange hr (fun fb b hfb hb => ?_) (by simpa using hd)
    rw [hfb] at hno
    dsimp only at hno
    rw [hb] at hno
    exact of_decide_eq_true hno
  · rw [if_neg h3] at hd
    cases hd

theorem post_preserves_inRange (w : WriteOutcome) (flushOk : Bool)
    (t : Transaction) (s : LedgerState)
    (hr : inRange s.accounts = true) (hno : stepNoOverflow t s.accounts = true) :
    inRange (postTransactionInternal w flushOk t s).2.accounts = true := by
  by_cases hmem : t.transactionID ∈ s.processed
  · rw [post_mem w flushOk t s hmem]; exact hr
  · cases w with
    | encodeFail =>
      unfold postTransactionInternal
      rw [if_neg hmem]
      exact hr
    | syncFail =>
      unfold postTransactionInternal
      rw [if_neg hmem]
      exact hr
    | ok =>
      cases flushOk with
      | false =>
        unfold postTransactionInternal
        rw [if_neg hmem]
        exact hr
      | true =>
        rw [post_ok_split t s hmem]
        cases hd : dispatchTx s.accounts t with
        | none => exact hr
        | some r =>
          cases r with
          | error e => exact hr
          | ok m => exact dispatch_ok_inRange hr hno hd

theorem runPosts_inRange (hist : List (WriteOutcome × Bool × Transaction))
    (s : LedgerState)
    (hr : inRange s.accounts = true) (hno : seqNoOverflow hist s = true) :
    inRange (runPosts hist s).accounts = true := by
  induction hist generalizing s with
  | nil => exact hr
  | cons p rest ih =>
    obtain ⟨w, f, t⟩ := p
    simp only [seqNoOverflow, Bool.and_eq_true] at hno
    exact ih _ (post_preserves_inRange w f t s hr hno.1) hno.2

theorem seqNoOverflow_of_append {pre suf : List (WriteOutcome × Bool × Transaction)}
    {s : LedgerState} (h : seqNoOverflow (pre ++ suf) s = true) :
    seqNoOverflow pre s = true := by
  induction pre generalizing s with
  | nil => rfl
  | cons p rest ih =>
    obtain ⟨w, f, t⟩ := p
    simp only [List.cons_append, seqNoOverflow, Bool.and_eq_true] at h
    simp only [seqNoOverflow, Bool.and_eq_true]
    exact ⟨h.1, ih h.2⟩

/-- Deposit of 1 into account 1, used to exhibit the overflow boundary. -/
def boundaryDeposit : Transaction :=
  { sequence := 0, fromAcc := 0, toAcc := 1, amount := 1, createdAt := 0,
    transactionID := 11, txType := 1 }

/-- The literal end-to-end scenario of the spec (§8): deposit 25 to 1,
withdraw 50 from 2, transfer 75 from 1 to 2. -/
def scenarioHistory : List (WriteOutcome × Bool × Transaction) :=
  [(.ok, true, { sequence := 0, fromAcc := 0, toAcc := 1, amount := 25, createdAt := 0,
                 transactionID := 21, txType := 1 }),
   (.ok, true, { sequence := 0, fromAcc := 2, toAcc := 0, amount := 50, createdAt := 0,
                 transactionID := 22, txType := 2 }),
   (.ok, true, { sequence := 0, fromAcc := 1, toAcc := 2, amount := 75, createdAt := 0,
                 transactionID := 23, txType := 3 })]

/-- Claim C7 as frozen is false at the overflow boundary: starting from the
non-negative balance map `{1 ↦ int64Max}`, the single completed (and
acknowledged-Ok) deposit of 1 wraps the balance to the negative `int64Min`. -/
theorem c7_counterexample :
    allNonNeg [(1, int64Max)] = true ∧
    allOk [(.ok, true, boundaryDeposit)] (initState [(1, int64Max)]) = true ∧
    (runPosts [(.ok, true, boundaryDeposit)] (initState [(1, int64Max)])).accounts =
      [(1, int64Min)] ∧
    allNonNeg [(1, int64Min)] = false := by
  have hrun : (runPosts [(.ok, true, boundaryDeposit)] (initState [(1, int64Max)])).accounts =
      [(1, wrap64 (int64Max + 1))] := rfl
  have hw : wrap64 (int64Max + 1) = int64Min := by
    unfold wrap64 int64Max int64Min; norm_num
  refine ⟨?_, ?_, ?_, ?_⟩
  · simp [allNonNeg, int64Max]
  · rfl
  · rw [hrun, hw]
  · simp [allNonNeg, int64Min]

/-- Claim C7 amended: for every history of completed posts from a state
whose balances are non-negative representable `int64` values, and in which
no post performs an overflowing `int64` credit (`seqNoOverflow`), every
account balance is non-negative after each completed post — i.e. at every
intermediate state reached by a prefix of the history. -/
theorem c7_amended_balances_nonneg (hist : List (WriteOutcome × Bool × Transaction))
    (s : LedgerState) (hr : inRange s.accounts = true)
    (hno : seqNoOverflow hist s = true)
    (pre suf : List (WriteOutcome × Bool × Transaction)) (hsplit : hist = pre ++ suf) :
    allNonNeg (runPosts pre s).accounts = true := by
  subst hsplit
  exact inRange_allNonNeg (runPosts_inRange pre s hr (seqNoOverflow_of_append hno))

/-- Witness for `c7_amended_balances_nonneg` on the spec's literal
end-to-end scenario over `{1 ↦ 100, 2 ↦ 50}`. -/
theorem c7_amended_balances_nonneg_witness :
    allNonNeg (runPosts scenarioHistory (initState [(1, 100), (2, 50)])).accounts = true :=
  c7_amended_balances_nonneg scenarioHistory (initState [(1, 100), (2, 50)])
    (by rfl) (by rfl) scenarioHistory [] (by rw [List.append_nil])

/-! ## Claim C2 -/

theorem dispatch_total (t : Transaction) (m : AccountMap)
    (hv : t.txType = 1 ∨ t.txType = 2 ∨ t.txType = 3) :
    ∃ r, dispatchTx m t = some r := by
  unfold dispatchTx
  rcases hv with h | h | h <;> simp [h]

/-- One completed-`Ok` post preserves the recovery invariant: replaying the
WAL produced so far over the seed accounts rebuilds exactly the live
accounts and idempotency index. -/
theorem recovery_step (A : AccountMap) (w : WriteOutcome) (f : Bool)
    (t : Transaction) (s : LedgerState)
    (hv : t.txType = 1 ∨ t.txType = 2 ∨ t.txType = 3)
    (hok : isOk (postTransactionInternal w f t s).1 = true)
    (hinv : replayAll s.walRecords ⟨A, []⟩ = .ok ⟨s.accounts, s.processed⟩) :
    replayAll (postTransactionInternal w f t s).2.walRecords ⟨A, []⟩ =
      .ok ⟨(postTransactionInternal w f t s).2.accounts,
           (postTransactionInternal w f t s).2.processed⟩ := by
  by_cases hmem : t.transactionID ∈ s.processed
  · rw [post_mem w f t s hmem]
    exact hinv
  · cases w with
    | encodeFail =>
      exfalso
      unfold postTransactionInternal at hok
      rw [if_neg hmem] at hok
      simp [isOk] at hok
    | syncFail =>
      exfalso
      unfold postTransactionInternal at hok
      rw [if_neg hmem] at hok
      simp [isOk] at hok
    | ok =>
      cases f with
      | false =>
        exfalso
        unfold postTransactionInternal at hok
        rw [if_neg hmem] at hok
        simp [isOk] at hok
      | true =>
        rw [post_ok_split t s hmem] at hok ⊢
        cases hd : dispatchTx s.accounts t with
        | none =>
          exfalso
          obtain ⟨r, hr⟩ := dispatch_total t s.accounts hv
          rw [hd] at hr
          cases hr
        | some r =>
          cases r with
          | error e =>
            exfalso
            rw [hd] at hok
            simp [isOk] at hok
          | ok m =>
            show replayAll (s.walRecords ++ [t]) ⟨A, []⟩ = _
            rw [replayAll_append, hinv]
            dsimp only
            unfold replayAll applyRecoverTransaction
            dsimp only
            rw [hd]
            rfl

theorem recovery_inv_run (A : AccountMap)
    (hist : List (WriteOutcome × Bool × Transaction)) :
    ∀ (s : LedgerState), validTypes hist = true → allOk hist s = true →
    replayAll s.walRecords ⟨A, []⟩ = .ok ⟨s.accounts, s.processed⟩ →
    replayAll (runPosts hist s).walRecords ⟨A, []⟩ =
      .ok ⟨(runPosts hist s).accounts, (runPosts hist s).processed⟩ := by
  induction hist with
  | nil => exact fun s _ _ hinv => hinv
  | cons p rest ih =>
    obtain ⟨w, f, t⟩ := p
    intro s hv hok hinv
    simp only [validTypes, List.all_cons, Bool.and_eq_true, decide_eq_true_eq] at hv
    simp only [allOk, Bool.and_eq_true] at hok
    exact ih _ hv.2 hok.2 (recovery_step A w f t s hv.1 hok.1 hinv)

/-- Withdraw of 60 from account 2 (balance 50), used to exhibit a post
that fails business validation yet leaves a WAL record. -/
def overdraftWithdraw : Transaction :=
  { sequence := 0, fromAcc := 2, toAcc := 0, amount := 60, createdAt := 0,
    transactionID := 30, txType := 2 }

/-- Claim C2 as frozen is false: a history whose single post fails with
`InsufficientBalance` (withdraw 60 from a balance of 50) leaves the account
map and idempotency index untouched but, because the WAL write precedes
validation, a WAL record behind — and recovery over that WAL does not
reproduce the history's state at all: it aborts, so ledger construction
fails instead of yielding the same balances. -/
theorem c2_counterexample :
    (runPosts [(.ok, true, overdraftWithdraw)] (initState [(2, 50)])).accounts =
      [(2, 50)] ∧
    (runPosts [(.ok, true, overdraftWithdraw)] (initState [(2, 50)])).walRecords =
      [overdraftWithdraw] ∧
    newMutexLedger [(2, 50)]
      (runPosts [(.ok, true, overdraftWithdraw)] (initState [(2, 50)])).walRecords =
      .error .insufficientBalance := by
  refine ⟨rfl, rfl, rfl⟩

/-- Claim C2 amended: for every history of declared-type transactions in
which every post returned `Ok`, constructing a fresh ledger over the WAL
that the history produced rebuilds exactly the state reached by the history
— the same account balances, the same idempotency index (even in insertion
order), and the same WAL.  In particular every `Ok` transaction is
reflected after the crash and recovery. -/
theorem c2_amended_recovery_equals_history (A : AccountMap)
    (hist : List (WriteOutcome × Bool × Transaction)) (hv : validTypes hist = true)
    (hok : allOk hist (initState A) = true) :
    newMutexLedger A (runPosts hist (initState A)).walRecords =
      .ok (runPosts hist (initState A)) := by
  have h := recovery_inv_run A hist (initState A) hv hok rfl
  unfold newMutexLedger
  rw [h]

/-- Witness for `c2_amended_recovery_equals_history` on the spec's literal
end-to-end scenario over `{1 ↦ 100, 2 ↦ 50}`. -/
theorem c2_amended_recovery_equals_history_witness :
    newMutexLedger [(1, 100), (2, 50)]
      (runPosts scenarioHistory (initState [(1, 100), (2, 50)])).walRecords =
      .ok (runPosts scenarioHistory (initState [(1, 100), (2, 50)])) :=
  c2_amended_recovery_equals_history [(1, 100), (2, 50)] scenarioHistory
    (by rfl) (by rfl)

end GoMemLedger
